import Mathlib

/-!
Shallow embedding of the AgentNodes dataflow runtime (Rust, `src/backend/src`),
covering the value model (`language/typing.rs`), the atomic-operation dispatch
(`language/nodes.rs`), the scoped evaluator (`eval/evaluator.rs`) and the
execution-node actor (`eval/execution_node.rs`), together with theorems that
settle the specification claims about these components.

Modelling conventions:
* Rust `i64` is modelled as `Int`; overflow matters only for `i64::MIN / -1`
  and `i64::MIN % -1`, where the Rust operators panic, so those operations
  return an `Option` whose `none` models the panic.
* Rust `f64` is idealised as `Rat`; the only float facts used by the claims
  are the `== 0.0` test and the structural promotion rules, which `Rat`
  shares (NaN and signed zero are not modelled).
* `uuid::Uuid` is modelled by a free term algebra `UuidM` whose `v5`
  constructor is injective by construction, idealising the collision
  freedom of the v5 hash.
* A Rust panic is modelled as `Option.none` at the outermost layer of the
  affected function.
-/

namespace AgentNodes

/-- `AgentType` from `ai/agent.rs`: the single vendor. -/
inductive AgentType
  | OpenAi
deriving DecidableEq, Repr

/-- Model of `uuid::Uuid`: the nil uuid, fresh v4 uuids (indexed by a seed),
and v5 hashing of a namespace uuid with the bytes of another uuid. -/
inductive UuidM
  | nil
  | fresh (seed : Nat)
  | v5 (ns : UuidM) (name : UuidM)
deriving DecidableEq, Repr

/-- `DataType` from `language/typing.rs`. -/
inductive DataType
  | array
  | string
  | integer
  | float
  | boolean
  | byte
  | handle
  | object
  | agent (t : AgentType)
  | none
deriving DecidableEq, Repr

/-- `DataValue` from `language/typing.rs`.  `Integer` carries an `i64`
(modelled `Int`), `Float` an `f64` (idealised `Rat`), `Byte` a `u8`
(modelled `Nat`), `Object` a `HashMap<String, DataValue>` (modelled as an
association list in iteration order). -/
inductive DataValue
  | string (s : String)
  | integer (x : Int)
  | float (q : Rat)
  | boolean (b : Bool)
  | byte (b : Nat)
  | array (xs : List DataValue)
  | handle (u : UuidM)
  | object (fields : List (String × DataValue))
  | agent (t : AgentType) (u : UuidM)
  | none

/-- `ArithmaticError` from `language/typing.rs` (source spelling kept). -/
inductive ArithmaticError
  | InvalidCombo (a b : DataValue)
  | DivByZero

/-- `DataValue::get_type`. -/
def DataValue.get_type : DataValue → DataType
  | .string _ => .string
  | .integer _ => .integer
  | .float _ => .float
  | .boolean _ => .boolean
  | .byte _ => .byte
  | .array _ => .array
  | .handle _ => .handle
  | .object _ => .object
  | .agent t _ => .agent t
  | .none => .none

/-- Truncation toward zero of a rational, modelling `f64::trunc` composed
with the exact value; `q.den` is positive so `Int.tdiv` truncates toward
zero exactly as Rust does. -/
def ratTrunc (q : Rat) : Int :=
  Int.tdiv q.num (q.den : Int)

/-- The least `i64`, `-2^63`. -/
def i64Min : Int := -(2 ^ 63)

/-- The greatest `i64`, `2^63 - 1`. -/
def i64Max : Int := 2 ^ 63 - 1

/-- Rust `as i64` on a truncated float saturates at the `i64` bounds. -/
def truncToI64 (q : Rat) : Int :=
  let t := ratTrunc q
  if t > i64Max then i64Max else if t < i64Min then i64Min else t

/-- `DataValue::try_cast`: identity, `None → Boolean(false)`,
`Integer → Float`, `Float → Integer` (truncate toward zero); all other
combinations fail with the `(from, to)` pair. -/
def DataValue.try_cast (v : DataValue) (to_type : DataType) :
    Except (DataType × DataType) DataValue :=
  if v.get_type = to_type then
    .ok v
  else
    match v, to_type with
    | .none, .boolean => .ok (.boolean false)
    | .integer x, .float => .ok (.float (x : Rat))
    | .float x, .integer => .ok (.integer (truncToI64 x))
    | _, _ => .error (v.get_type, to_type)

/-- `impl Div for DataValue` (`language/typing.rs`).  The result is
`Option.none` exactly when the Rust code panics, which happens only for
`i64::MIN / -1` (two's-complement division overflow always panics in
Rust, in release builds as well). -/
def dvDiv : DataValue → DataValue → Option (Except ArithmaticError DataValue)
  | .float x, .float y =>
    some (if y = 0 then .error .DivByZero else .ok (.float (x / y)))
  | .integer x, .integer y =>
    if y = 0 then some (.error .DivByZero)
    else if x = i64Min ∧ y = -1 then Option.none
    else some (.ok (.integer (Int.tdiv x y)))
  | .float x, .integer y =>
    some (if y = 0 then .error .DivByZero else .ok (.float (x / (y : Rat))))
  | .integer x, .float y =>
    some (if y = 0 then .error .DivByZero else .ok (.float ((x : Rat) / y)))
  | a, b => some (.error (.InvalidCombo a b))

/-- Truncated remainder on rationals, modelling `f64`'s `%` operator
(`x - y * trunc(x / y)`). -/
def ratFmod (x y : Rat) : Rat :=
  x - y * ((ratTrunc (x / y) : Int) : Rat)

/-- `impl Rem for DataValue` (`language/typing.rs`).  `Option.none` models
the panic at `i64::MIN % -1` (remainder overflow panics in Rust). -/
def dvRem : DataValue → DataValue → Option (Except ArithmaticError DataValue)
  | .float x, .float y =>
    some (if y = 0 then .error .DivByZero else .ok (.float (ratFmod x y)))
  | .integer x, .integer y =>
    if y = 0 then some (.error .DivByZero)
    else if x = i64Min ∧ y = -1 then Option.none
    else some (.ok (.integer (Int.tmod x y)))
  | .float x, .integer y =>
    some (if y = 0 then .error .DivByZero else .ok (.float (ratFmod x (y : Rat))))
  | .integer x, .float y =>
    some (if y = 0 then .error .DivByZero else .ok (.float (ratFmod (x : Rat) y)))
  | a, b => some (.error (.InvalidCombo a b))

/-! ### Display and JSON serialisation (`impl Display for DataValue`) -/

/-- One character of serde_json string escaping: `"` and `\` are escaped,
control characters use the two-character shorthands or `\u00XX`. -/
def jsonEscapeChar (c : Char) : String :=
  if c = '"' then "\\\""
  else if c = '\\' then "\\\\"
  else if c = Char.ofNat 8 then "\\b"
  else if c = Char.ofNat 9 then "\\t"
  else if c = Char.ofNat 10 then "\\n"
  else if c = Char.ofNat 12 then "\\f"
  else if c = Char.ofNat 13 then "\\r"
  else if c.toNat < 32 then
    "\\u00" ++ (if c.toNat < 16 then "0" else "") ++ String.mk (Nat.toDigits 16 c.toNat)
  else String.singleton c

/-- serde_json escaping of a whole string. -/
def jsonEscape (s : String) : String :=
  String.join (s.toList.map jsonEscapeChar)

/-- A JSON string literal. -/
def jsonStr (s : String) : String :=
  "\"" ++ jsonEscape s ++ "\""

/-- Rendering of a `UuidM` term, standing in for the canonical hyphenated
form that `uuid::Uuid`'s `Display` produces.  The claims never inspect this
text; it only needs to be a fixed function of the uuid. -/
def uuidStr : UuidM → String
  | .nil => "00000000-0000-0000-0000-000000000000"
  | .fresh n => "v4-" ++ toString n
  | .v5 a b => "v5-" ++ uuidStr a ++ "-" ++ uuidStr b

/-- Idealised decimal rendering of an `f64` under Rust's `Display`
(`{}`); the exact shortest-representation algorithm of the Rust standard
library is not modelled, only that it is a fixed function of the value. -/
def floatDisplay (q : Rat) : String := toString q

/-- Idealised rendering of an `f64` by serde_json (ryu); again only used
as a fixed function of the value. -/
def floatJson (q : Rat) : String := toString q

/-- Rust `Debug` form of `AgentType` (used by `Display for DataValue` in
the `Agent` arm as `{t:?}`). -/
def agentDebug : AgentType → String
  | .OpenAi => "OpenAi"

mutual

/-- serde_json serialisation of a `DataValue` (the enum is `untagged`):
strings become JSON strings, numerics JSON numbers, arrays/objects nest,
`Handle` serialises as its uuid string, `Agent` as a two-element array,
`None` as `null`.  `Object` fields are emitted in the model's list order
(the Rust `HashMap` iteration order is arbitrary). -/
def jsonOf : DataValue → String
  | .string s => jsonStr s
  | .integer x => toString x
  | .float q => floatJson q
  | .boolean b => toString b
  | .byte b => toString b
  | .array xs => "[" ++ jsonList xs ++ "]"
  | .handle u => jsonStr (uuidStr u)
  | .object fs => "\x7b" ++ jsonFields fs ++ "\x7d"
  | .agent t u => "[" ++ jsonStr (agentDebug t) ++ "," ++ jsonStr (uuidStr u) ++ "]"
  | .none => "null"

/-- Comma-joined serialisation of the elements of a JSON array. -/
def jsonList : List DataValue → String
  | [] => ""
  | [x] => jsonOf x
  | x :: y :: xs => jsonOf x ++ "," ++ jsonList (y :: xs)

/-- Comma-joined serialisation of the fields of a JSON object. -/
def jsonFields : List (String × DataValue) → String
  | [] => ""
  | [(k, v)] => jsonStr k ++ ":" ++ jsonOf v
  | (k, v) :: f :: fs => jsonStr k ++ ":" ++ jsonOf v ++ "," ++ jsonFields (f :: fs)

end

/-- Rust's `{x:x}` on a `u8`: lowercase hexadecimal with no padding. -/
def natToHex (n : Nat) : String :=
  String.mk (Nat.toDigits 16 n)

/-- `impl Display for DataValue` (`language/typing.rs`): strings and
numerics print directly, `Array`/`Object` via `serde_json::to_string`,
`Byte` via the `{x:x}` hex format, `Handle` as the uuid, `Agent` as
`{t:?}:{id}`, `None` as the empty string. -/
def displayDataValue : DataValue → String
  | .string x => x
  | .integer x => toString x
  | .float x => floatDisplay x
  | .boolean x => toString x
  | .handle x => uuidStr x
  | .array x => jsonOf (.array x)
  | .byte x => natToHex x
  | .object x => jsonOf (.object x)
  | .agent t id => agentDebug t ++ ":" ++ uuidStr id
  | .none => ""

/-! ### `read_until_generic` (`eval/evaluator.rs`) -/

/-- The window update of one `read_until_generic` iteration:
`window.push_back(byte)` followed by the conditional `pop_front` that
keeps at most `|pattern|` bytes. -/
def windowStep (pattern window : List Nat) (b : Nat) : List Nat :=
  let pushed := window ++ [b]
  if pattern.length < pushed.length then pushed.tail else pushed

/-- Loop body of `read_until_generic`: the reader is a finite byte stream
from which each iteration reads one byte; `buffer` and `window` are the
accumulators of the Rust loop.  Returns the final buffer and the bytes
left unread in the stream. -/
def readUntilAux (pattern buffer window : List Nat) :
    List Nat → List Nat × List Nat
  | [] => (buffer, [])
  | b :: rest =>
    if (windowStep pattern window b).length = pattern.length ∧
        windowStep pattern window b = pattern then
      (buffer ++ [b], rest)
    else readUntilAux pattern (buffer ++ [b]) (windowStep pattern window b) rest

/-- `read_until_generic`: reads one byte at a time, maintaining a sliding
window of the last `|pattern|` bytes, until the window equals the pattern
or the stream is exhausted.  Returns `(bytes read, bytes remaining)`. -/
def read_until_generic (pattern stream : List Nat) : List Nat × List Nat :=
  readUntilAux pattern [] [] stream

/-! ### Complex-template cache (`Evaluator::get_evaluator` / `add_evaluator`) -/

/-- One scope's `evaluator_cache`: a `HashMap<String, Arc<Evaluator>>`,
modelled as an association list where insertion prepends (newest entry
wins, matching `HashMap::insert` overwrite semantics).  Cached evaluator
references are modelled by `Nat` identities. -/
abbrev Cache := List (String × Nat)

/-- `HashMap::get`. -/
def cacheFind (c : Cache) (p : String) : Option Nat :=
  (List.find? (fun pr => pr.1 = p) c).map (fun pr => pr.2)

/-- `HashMap::insert`. -/
def cacheInsert (c : Cache) (p : String) (e : Nat) : Cache :=
  (p, e) :: c

/-- A scope chain: the head is the querying scope's own cache, the tail
the caches of its ancestors in order (the root last).  This models the
`parent : Option<Arc<Evaluator>>` link. -/
abbrev Chain := List Cache

/-- `Evaluator::add_evaluator`: insert locally, then propagate the same
insertion to the parent chain. -/
def add_evaluator : Chain → String → Nat → Chain
  | [], _, _ => []
  | c :: rest, p, e => cacheInsert c p e :: add_evaluator rest p e

/-- `Evaluator::get_evaluator`: check the own cache; on a miss walk the
parent chain, and memoize a hit found during the walk into the own cache.
Returns the result together with the updated chain (the caches mutated by
memoization). -/
def get_evaluator : Chain → String → Option Nat × Chain
  | [], _ => (Option.none, [])
  | c :: rest, p =>
    match cacheFind c p with
    | some e => (some e, c :: rest)
    | Option.none =>
      match get_evaluator rest p with
      | (some e, rest') => (some e, cacheInsert c p e :: rest')
      | (Option.none, rest') => (Option.none, c :: rest')

/-! ### Scoped identity (`Evaluator::new` / `convert_id` / `find_node`) -/

/-- `Evaluator::convert_id`: rehash a local id under the scope id with a
v5 hash over the local id's bytes. -/
def convert_id (scope unscoped : UuidM) : UuidM :=
  UuidM.v5 scope unscoped

/-- The part of a `Complex` specification (`language/nodes.rs`) that id
scoping touches: the local end-node id and the instances map (modelled as
an association list keyed by local node ids; the payload `Nat` stands for
the `Instance` data, which id conversion copies unchanged). -/
structure ComplexM where
  end_node : UuidM
  instances : List (UuidM × Nat)

/-- The id-related fields of a loaded `Evaluator`. -/
structure EvaluatorM where
  scope_id : UuidM
  nodes : List (UuidM × Nat)
  end_node : UuidM

/-- Id scoping performed by `Evaluator::new`: the scope id is
`v5(parent-scope-id, fresh-v4-bytes)` (nil for a root), and every local
instance id is rehashed with `convert_id`. -/
def evaluatorNew (parent : Option UuidM) (freshSeed : Nat) (spec : ComplexM) :
    EvaluatorM :=
  let parent_id := parent.getD UuidM.nil
  let scope_id := UuidM.v5 parent_id (UuidM.fresh freshSeed)
  { scope_id := scope_id
  , nodes := spec.instances.map (fun pr => (convert_id scope_id pr.1, pr.2))
  , end_node := convert_id scope_id spec.end_node }

/-- `Evaluator::find_node`: look the local id up under
`v5(scope_id, local-id)`. -/
def find_node (e : EvaluatorM) (id : UuidM) : Option Nat :=
  (List.find? (fun pr => pr.1 = UuidM.v5 e.scope_id id) e.nodes).map (fun pr => pr.2)

/-! ### Atomic evaluation (`language/nodes.rs`) -/

/-- The constructors of `EvalError` (`eval/eval_error.rs`) that the
modelled code paths can produce. -/
inductive EvalError
  | MathError (e : ArithmaticError)
  | IncorrectTyping (got expected : List DataType)
  | IncorrectInputCount
  | CastError (e : DataType × DataType)
  | PortOutOfBounds (p : Nat)
  | NodeNotFound (u : UuidM)
  | Closed
  | ComplexWeakInput
  | IoErr

/-- `inputs.into_iter().collect::<Option<Vec<DataValue>>>()`. -/
def listCollect : List (Option DataValue) → Option (List DataValue)
  | [] => some []
  | Option.none :: _ => Option.none
  | some x :: xs => (listCollect xs).map (fun ys => x :: ys)

/-- `ControlFlow::WaitForInit` arm of `NodeType::eval_control`
(`language/nodes.rs`).  `stored` is the node's stored value,
`initResults` the per-port channel results of `listen_all` on the
init-edge node (`Option.none` for a channel that resolved without a
value), and `input0` the single weak input as delivered by
`ExecutionNode::process` (`Option.none` when the weak channel had no
value ready).  Returns the new stored value and the outputs.  Note that
the input list is unwrapped (failing on a channel-level `None`) before
the stored value is consulted. -/
def evalWaitForInit (stored : Option DataValue) (initResults : List (Option DataValue))
    (input0 : Option DataValue) : Except EvalError (Option DataValue × List DataValue) :=
  match input0 with
  | Option.none => .error .IncorrectInputCount
  | some v =>
    if stored.isNone then
      .ok (some (.boolean true), initResults.map (fun x => x.getD DataValue.none))
    else
      match v with
      | DataValue.none => .ok (stored, [])
      | _ => .ok (stored, [v])

/-- `AtomicIo::Open` arm of `NodeType::eval_io` (`language/nodes.rs`).
`openResult` is the outcome of the underlying open + `register_io`
(a fresh handle uuid on success).  Returns the evaluation result, the
node's stored value afterwards, and whether an open was attempted. -/
def eval_io_open (stored : Option DataValue) (openResult : Except EvalError UuidM) :
    Except EvalError (List DataValue) × Option DataValue × Bool :=
  match stored with
  | some x => (.ok [x], some x, false)
  | Option.none =>
    match openResult with
    | .error e => (.error e, Option.none, true)
    | .ok h => (.ok [.handle h], some (.handle h), true)

/-- `AtomicIo::Read` arm of `NodeType::eval_io` (`language/nodes.rs`).
The Rust code builds `buf = vec![0; size]`, calls
`Evaluator::read_bytes` — which ends in `io.read_buf(&mut buf)` — and
then truncates with `buf.resize(count, 0)`.  `tokio::io::AsyncReadExt::
read_buf` with a `Vec<u8>` uses the `bytes::BufMut` impl of `Vec`, which
APPENDS after the current length instead of overwriting the zero
prefix; `chunk` is the byte sequence that single read delivers, and
`count` is its length. -/
def eval_io_read (size : Int) (chunk : List Nat) : List DataValue :=
  let buf0 := List.replicate size.toNat 0
  let buf1 := buf0 ++ chunk
  let count := chunk.length
  let buf2 := buf1.take count ++ List.replicate (count - buf1.length) 0
  [DataValue.array (buf2.map (fun b => DataValue.byte b))]

mutual

/-- Structural equality on `DataValue`, modelling the derived Rust
`PartialEq` (with `f64` idealised as `Rat`, so the NaN inequality is not
modelled; `Object` compares in field order, idealising the unordered
`HashMap` comparison). -/
def dvBEq : DataValue → DataValue → Bool
  | .string a, .string b => a == b
  | .integer a, .integer b => a == b
  | .float a, .float b => a == b
  | .boolean a, .boolean b => a == b
  | .byte a, .byte b => a == b
  | .array a, .array b => dvBEqList a b
  | .handle a, .handle b => a == b
  | .object a, .object b => dvBEqFields a b
  | .agent t a, .agent u b => t == u && a == b
  | .none, .none => true
  | _, _ => false

/-- Elementwise equality of `Vec<DataValue>`. -/
def dvBEqList : List DataValue → List DataValue → Bool
  | [], [] => true
  | a :: as_, b :: bs => dvBEq a b && dvBEqList as_ bs
  | _, _ => false

/-- Fieldwise equality of object field lists. -/
def dvBEqFields : List (String × DataValue) → List (String × DataValue) → Bool
  | [], [] => true
  | (k, v) :: as_, (l, w) :: bs => k == l && dvBEq v w && dvBEqFields as_ bs
  | _, _ => false

end

/-- Equality on `Option<DataValue>` (derived in Rust). -/
def optDvBEq : Option DataValue → Option DataValue → Bool
  | Option.none, Option.none => true
  | some a, some b => dvBEq a b
  | _, _ => false

/-- `AtomicLogic` from `language/nodes.rs`. -/
inductive AtomicLogic
  | And
  | Or
  | Xor
  | Not
  | Eq
deriving DecidableEq, Repr

/-- The cast loop of `NodeType::eval_logic`: each input is cast to
`Boolean` (the first cast failure aborts with a `CastError`); the inner
`panic!` branch — a successful cast to `Boolean` yielding a non-Boolean
value — is modelled by `Option.none`. -/
def castAllToBool : List DataValue → Option (Except EvalError (List Bool))
  | [] => some (.ok [])
  | v :: vs =>
    match DataValue.try_cast v DataType.boolean with
    | .error e => some (.error (.CastError e))
    | .ok (DataValue.boolean b) =>
      (castAllToBool vs).map (fun r => r.map (fun bs => b :: bs))
    | .ok _ => Option.none

/-- `bools.into_iter().reduce(f).unwrap()` wrapped as one output: the
`unwrap` panics (modelled `Option.none`) exactly when the list is
empty. -/
def reduceLogic (bools : List Bool) (f : Bool → Bool → Bool) :
    Option (Except EvalError (List DataValue)) :=
  match bools with
  | [] => Option.none
  | b :: bs => some (.ok [DataValue.boolean (bs.foldl f b)])

/-- `NodeType::eval_logic` (`language/nodes.rs`).  `Eq` is handled first
(arity 2, structural equality on the raw optional inputs); the other
operators unwrap the inputs, cast each to `Boolean` and fold.  The outer
`Option` is `none` exactly when the Rust code panics. -/
def eval_logic (logical_op : AtomicLogic) (inputs : List (Option DataValue)) :
    Option (Except EvalError (List DataValue)) :=
  if logical_op = AtomicLogic.Eq then
    match inputs with
    | [a, b] => some (.ok [DataValue.boolean (optDvBEq a b)])
    | _ => some (.error .IncorrectInputCount)
  else
    match listCollect inputs with
    | Option.none => some (.error .IncorrectInputCount)
    | some unwrapped =>
      match castAllToBool unwrapped with
      | Option.none => Option.none
      | some (.error e) => some (.error e)
      | some (.ok bools) =>
        match logical_op with
        | .And => reduceLogic bools (fun a b => a && b)
        | .Or => reduceLogic bools (fun a b => a || b)
        | .Xor => reduceLogic bools (fun a b => xor a b)
        | .Not => some (.ok (bools.map (fun b => DataValue.boolean (!b))))
        | .Eq => Option.none

/-! ### Strong-edge gather protocol (`eval/execution_node.rs`) -/

/-- `NodeState` from `eval/execution_node.rs`. -/
inductive NodeStateM
  | Waiting
  | Processing
  | Closed
deriving DecidableEq, Repr

/-- The observable state of one output port of the source node during a
gather: the pending single-shot senders (`outputs[port]`, in registration
order, identified by fresh channel ids), the next fresh id, and the
source's lifecycle state. -/
structure SlotState where
  pending : List Nat
  nextChan : Nat
  state : NodeStateM
deriving DecidableEq, Repr

/-- Events observable during one strong-edge gather. -/
inductive C9Event
  | register (c : Nat)
  | triggered
  | drainSend (c : Nat)
  | recv (c : Nat)
  | dropChan (c : Nat)
deriving DecidableEq, Repr

/-- `ExecutionNode::trigger_processing`: release the one-permit notifier
only if the state is `Waiting`, moving it to `Processing`. -/
def triggerProcessing (s : SlotState) : SlotState × List C9Event :=
  if s.state = NodeStateM.Waiting then
    ({ s with state := NodeStateM.Processing }, [C9Event.triggered])
  else (s, [])

/-- `ExecutionNode::listen`: register a fresh single-shot sender on the
output slot, then call `trigger_processing`; returns the receiver's
channel id. -/
def listenOp (s : SlotState) : SlotState × Nat × List C9Event :=
  let c := s.nextChan
  let s1 : SlotState := { pending := s.pending ++ [c], nextChan := c + 1, state := s.state }
  let (s2, ev) := triggerProcessing s1
  (s2, c, [C9Event.register c] ++ ev)

/-- The output drain of `ExecutionNode::process` (step 4): send the
produced value once to every pending sender in registration order,
emptying the slot (the node has already returned to `Waiting`). -/
def drainOp (s : SlotState) : SlotState × List C9Event :=
  ({ pending := [], nextChan := s.nextChan, state := NodeStateM.Waiting },
    s.pending.map C9Event.drainSend)

/-- One strong-edge input gather of `ExecutionNode::process`, interleaved
with the source node's invocation: `get_channel` calls `listen` on the
source (first registration), the gather then calls `listen` directly a
second time and awaits only the second receiver.  That await can resolve
only after the source's drain, so the drain events sit between the
registrations and the `recv`; the first receiver is a local binding of
the gather's loop iteration, dropped unread when the iteration ends. -/
def strongEdgeEpisode : List C9Event :=
  let s0 : SlotState := { pending := [], nextChan := 0, state := NodeStateM.Waiting }
  let (s1, a, l1) := listenOp s0
  let (s2, b, l2) := listenOp s1
  let (_s3, l3) := drainOp s2
  l1 ++ l2 ++ l3 ++ [C9Event.recv b] ++ [C9Event.dropChan a]

/-! ## Theorems settling the claims -/

/-- C1: evaluation of the `Io(Read)` code at the failing input.  With
`size = 3` and a reader whose single read delivers the bytes `[1, 2, 3]`,
the code returns an array of three ZERO bytes — `read_buf` appended the
data after the three-zero prefix and `resize(count, 0)` kept only that
prefix — instead of the bytes actually read; and with `size = 0` the code
still performs a read (the `Vec` `BufMut` has unbounded spare capacity)
and returns whatever it delivered instead of an empty array. -/
theorem io_read_discards_read_bytes :
    eval_io_read 3 [1, 2, 3]
      = [DataValue.array [DataValue.byte 0, DataValue.byte 0, DataValue.byte 0]] ∧
    eval_io_read 0 [5] = [DataValue.array [DataValue.byte 5]] :=
  ⟨rfl, rfl⟩

/-- C3 counterexample: on a later invocation (stored value set) with the
weak input not ready — delivered as a channel-level `None` per the weak
edge protocol — `WaitForInit` does not suppress its output (`Ok([])`); it
fails with `IncorrectInputCount`, because the input list is unwrapped
before the stored value is consulted. -/
theorem wait_for_init_none_input_errors :
    evalWaitForInit (some (DataValue.boolean true)) [] Option.none
      = Except.error EvalError.IncorrectInputCount ∧
    (Except.error EvalError.IncorrectInputCount :
        Except EvalError (Option DataValue × List DataValue))
      ≠ Except.ok (some (DataValue.boolean true), []) :=
  ⟨rfl, fun h => Except.noConfusion h⟩

/-- C3 (amended): a channel-level `None` input makes every invocation of
`WaitForInit` fail with `IncorrectInputCount`; with a ready input, the
first invocation (stored value unset) stores a true marker and emits the
values gathered from the init-edge listeners, and later invocations pass
a non-`None` value through and suppress output exactly when the delivered
value is `DataValue::None`. -/
theorem wait_for_init_cases :
    (∀ (stored : Option DataValue) (initResults : List (Option DataValue)),
        evalWaitForInit stored initResults Option.none
          = Except.error EvalError.IncorrectInputCount) ∧
    (∀ (initResults : List (Option DataValue)) (v : DataValue),
        evalWaitForInit Option.none initResults (some v)
          = Except.ok (some (DataValue.boolean true),
              initResults.map (fun x => x.getD DataValue.none))) ∧
    (∀ (s : DataValue) (initResults : List (Option DataValue)),
        evalWaitForInit (some s) initResults (some DataValue.none)
          = Except.ok (some s, [])) ∧
    (∀ (s : DataValue) (initResults : List (Option DataValue)) (v : DataValue),
        v ≠ DataValue.none →
        evalWaitForInit (some s) initResults (some v) = Except.ok (some s, [v])) := by
  refine ⟨fun stored init => ?_, fun init v => rfl, fun s init => rfl,
    fun s init v hv => ?_⟩
  · cases stored <;> rfl
  · cases v <;> first | rfl | exact absurd rfl hv

/-- C3 witness: the amended characterisation at concrete inputs. -/
theorem wait_for_init_cases_witness :
    evalWaitForInit (some (DataValue.boolean true)) [] Option.none
      = Except.error EvalError.IncorrectInputCount ∧
    evalWaitForInit Option.none [some (DataValue.integer 3)] (some (DataValue.integer 1))
      = Except.ok (some (DataValue.boolean true), [DataValue.integer 3]) ∧
    evalWaitForInit (some (DataValue.boolean true)) [] (some DataValue.none)
      = Except.ok (some (DataValue.boolean true), []) ∧
    evalWaitForInit (some (DataValue.boolean true)) [] (some (DataValue.integer 7))
      = Except.ok (some (DataValue.boolean true), [DataValue.integer 7]) :=
  ⟨wait_for_init_cases.1 (some (DataValue.boolean true)) [],
   wait_for_init_cases.2.1 [some (DataValue.integer 3)] (DataValue.integer 1),
   wait_for_init_cases.2.2.1 (DataValue.boolean true) [],
   wait_for_init_cases.2.2.2 (DataValue.boolean true) [] (DataValue.integer 7)
     (fun h => DataValue.noConfusion h)⟩

/-- C7: `Io(Open)` memoization.  With a stored value the evaluation
returns it and attempts no open; a successful first open stores the
handle and returns it; a failed open propagates the error and leaves the
stored value unset; consequently a second evaluation after a success
returns the same handle without opening, and after a failure it retries
the open with the new outcome. -/
theorem io_open_memoization :
    (∀ (x : DataValue) (r : Except EvalError UuidM),
        eval_io_open (some x) r = (Except.ok [x], some x, false)) ∧
    (∀ h : UuidM, eval_io_open Option.none (Except.ok h)
        = (Except.ok [DataValue.handle h], some (DataValue.handle h), true)) ∧
    (∀ e : EvalError, eval_io_open Option.none (Except.error e)
        = (Except.error e, Option.none, true)) ∧
    (∀ (h : UuidM) (r2 : Except EvalError UuidM),
        eval_io_open (eval_io_open Option.none (Except.ok h)).2.1 r2
          = (Except.ok [DataValue.handle h], some (DataValue.handle h), false)) ∧
    (∀ (e : EvalError) (r2 : Except EvalError UuidM),
        eval_io_open (eval_io_open Option.none (Except.error e)).2.1 r2
          = eval_io_open Option.none r2) :=
  ⟨fun _ _ => rfl, fun _ => rfl, fun _ => rfl, fun _ _ => rfl, fun _ _ => rfl⟩

/-- C9 counterexample: in the strong-edge gather episode the source's
drain sends to the first registered sender BEFORE the gathering node
drops the first receiver (the receiver is a live local binding of the
gather iteration while the awaited second receiver is pending), so "with
the first receiver already dropped" fails. -/
theorem drain_precedes_first_receiver_drop :
    List.indexOf (C9Event.drainSend 0) strongEdgeEpisode
      < List.indexOf (C9Event.dropChan 0) strongEdgeEpisode ∧
    C9Event.dropChan 0 ∈ strongEdgeEpisode ∧
    C9Event.drainSend 0 ∈ strongEdgeEpisode := by
  decide

/-- C9 (amended): each strong-edge gather registers exactly two
single-shot channels on the source port (one inside `get_channel`'s
`listen`, one by the direct `listen` call); the drain sends the produced
value once to each of the two senders; only the second receiver is
awaited, and the first receiver is dropped unread only after that await
resolves — hence after the drain, not before it. -/
theorem strong_edge_double_listen :
    strongEdgeEpisode.filter
        (fun e => match e with | C9Event.register _ => true | _ => false)
      = [C9Event.register 0, C9Event.register 1] ∧
    strongEdgeEpisode.filter
        (fun e => match e with | C9Event.drainSend _ => true | _ => false)
      = [C9Event.drainSend 0, C9Event.drainSend 1] ∧
    strongEdgeEpisode.filter
        (fun e => match e with | C9Event.recv _ => true | _ => false)
      = [C9Event.recv 1] ∧
    List.indexOf (C9Event.recv 1) strongEdgeEpisode
      < List.indexOf (C9Event.dropChan 0) strongEdgeEpisode := by
  decide

/-- C4 counterexample: with the nonzero right operand `-1` and left
operand `i64::MIN`, integer division and remainder do not return the
arithmetic result — the Rust operators panic on two's-complement
overflow (modelled `Option.none`). -/
theorem div_overflow_panics :
    dvDiv (DataValue.integer i64Min) (DataValue.integer (-1)) = Option.none ∧
    dvRem (DataValue.integer i64Min) (DataValue.integer (-1)) = Option.none ∧
    (Option.none : Option (Except ArithmaticError DataValue))
      ≠ some (Except.ok (DataValue.integer (2 ^ 63))) :=
  ⟨rfl, rfl, fun h => Option.noConfusion h⟩

/-- C4 (amended): on all four numeric combinations, division and modulo
with a zero right operand return the dedicated `DivByZero` error and
never panic; with a nonzero right operand they return the arithmetic
result under the promotion rules (integer-integer stays integer, any
float operand promotes to float), except `Integer(i64::MIN)` divided or
modded by `Integer(-1)`, where the `i64` operation overflows and the Rust
code panics. -/
theorem div_rem_zero_and_promotion :
    (∀ x : Int, dvDiv (DataValue.integer x) (DataValue.integer 0)
          = some (Except.error ArithmaticError.DivByZero) ∧
        dvRem (DataValue.integer x) (DataValue.integer 0)
          = some (Except.error ArithmaticError.DivByZero)) ∧
    (∀ x : Rat, dvDiv (DataValue.float x) (DataValue.float 0)
          = some (Except.error ArithmaticError.DivByZero) ∧
        dvRem (DataValue.float x) (DataValue.float 0)
          = some (Except.error ArithmaticError.DivByZero)) ∧
    (∀ x : Rat, dvDiv (DataValue.float x) (DataValue.integer 0)
          = some (Except.error ArithmaticError.DivByZero) ∧
        dvRem (DataValue.float x) (DataValue.integer 0)
          = some (Except.error ArithmaticError.DivByZero)) ∧
    (∀ x : Int, dvDiv (DataValue.integer x) (DataValue.float 0)
          = some (Except.error ArithmaticError.DivByZero) ∧
        dvRem (DataValue.integer x) (DataValue.float 0)
          = some (Except.error ArithmaticError.DivByZero)) ∧
    (∀ x y : Int, y ≠ 0 → ¬(x = i64Min ∧ y = -1) →
        dvDiv (DataValue.integer x) (DataValue.integer y)
          = some (Except.ok (DataValue.integer (Int.tdiv x y))) ∧
        dvRem (DataValue.integer x) (DataValue.integer y)
          = some (Except.ok (DataValue.integer (Int.tmod x y)))) ∧
    (∀ x y : Rat, y ≠ 0 →
        dvDiv (DataValue.float x) (DataValue.float y)
          = some (Except.ok (DataValue.float (x / y))) ∧
        dvRem (DataValue.float x) (DataValue.float y)
          = some (Except.ok (DataValue.float (ratFmod x y)))) ∧
    (∀ (x : Rat) (y : Int), y ≠ 0 →
        dvDiv (DataValue.float x) (DataValue.integer y)
          = some (Except.ok (DataValue.float (x / (y : Rat)))) ∧
        dvRem (DataValue.float x) (DataValue.integer y)
          = some (Except.ok (DataValue.float (ratFmod x (y : Rat))))) ∧
    (∀ (x : Int) (y : Rat), y ≠ 0 →
        dvDiv (DataValue.integer x) (DataValue.float y)
          = some (Except.ok (DataValue.float ((x : Rat) / y))) ∧
        dvRem (DataValue.integer x) (DataValue.float y)
          = some (Except.ok (DataValue.float (ratFmod (x : Rat) y)))) := by
  refine ⟨fun x => ⟨by simp [dvDiv], by simp [dvRem]⟩,
    fun x => ⟨by simp [dvDiv], by simp [dvRem]⟩,
    fun x => ⟨by simp [dvDiv], by simp [dvRem]⟩,
    fun x => ⟨by simp [dvDiv], by simp [dvRem]⟩,
    fun x y hy hxy => ⟨by simp [dvDiv, hy, hxy], by simp [dvRem, hy, hxy]⟩,
    fun x y hy => ⟨by simp [dvDiv, hy], by simp [dvRem, hy]⟩,
    fun x y hy => ⟨by simp [dvDiv, hy], by simp [dvRem, hy]⟩,
    fun x y hy => ⟨by simp [dvDiv, hy], by simp [dvRem, hy]⟩⟩

/-- C4 witness: the amended statement at concrete operands. -/
theorem div_rem_zero_and_promotion_witness :
    dvDiv (DataValue.integer 7) (DataValue.integer 0)
      = some (Except.error ArithmaticError.DivByZero) ∧
    dvDiv (DataValue.integer 7) (DataValue.integer 2)
      = some (Except.ok (DataValue.integer 3)) ∧
    dvRem (DataValue.integer 7) (DataValue.integer 2)
      = some (Except.ok (DataValue.integer 1)) ∧
    dvDiv (DataValue.float 1) (DataValue.float 2)
      = some (Except.ok (DataValue.float (1 / 2))) :=
  ⟨(div_rem_zero_and_promotion.1 7).1,
   by
     have h := (div_rem_zero_and_promotion.2.2.2.2.1 7 2 (by decide) (by decide)).1
     simpa using h,
   by
     have h := (div_rem_zero_and_promotion.2.2.2.2.1 7 2 (by decide) (by decide)).2
     simpa using h,
   (div_rem_zero_and_promotion.2.2.2.2.2.1 1 2 (by norm_num)).1⟩

/-- C8 counterexample: the display form of `Byte(5)` is the single
character `5`, not the zero-padded two-digit form `05` — the Rust
format string is `{x:x}`, which does not pad. -/
theorem byte_display_unpadded :
    displayDataValue (DataValue.byte 5) = "5" ∧ "5" ≠ "05" :=
  ⟨by decide, by decide⟩

set_option maxRecDepth 4096 in
/-- C8 (amended): `Byte(b)` displays as the UNPADDED lowercase
hexadecimal representation of `b` (one digit below `0x10`, two digits
from `0x10` through `0xff`), while integers use their decimal
representation, `Array` and `Object` are JSON-serialized, and `None`
displays as the empty string. -/
theorem display_forms :
    (∀ b : Nat, displayDataValue (DataValue.byte b) = natToHex b) ∧
    (∀ b : Fin 256, (b : Nat) < 16 →
        (displayDataValue (DataValue.byte b)).length = 1) ∧
    (∀ b : Fin 256, 16 ≤ (b : Nat) →
        (displayDataValue (DataValue.byte b)).length = 2) ∧
    (∀ x : Int, displayDataValue (DataValue.integer x) = toString x) ∧
    (∀ xs : List DataValue,
        displayDataValue (DataValue.array xs) = jsonOf (DataValue.array xs)) ∧
    (∀ fs : List (String × DataValue),
        displayDataValue (DataValue.object fs) = jsonOf (DataValue.object fs)) ∧
    displayDataValue DataValue.none = "" :=
  ⟨fun _ => rfl, by decide, by decide, fun _ => rfl, fun _ => rfl, fun _ => rfl, rfl⟩

/-- C8 witness: the amended display facts at concrete bytes. -/
theorem display_forms_witness :
    displayDataValue (DataValue.byte 5) = natToHex 5 ∧
    (displayDataValue (DataValue.byte 5)).length = 1 ∧
    (displayDataValue (DataValue.byte 255)).length = 2 :=
  ⟨display_forms.1 5,
   display_forms.2.1 ⟨5, by decide⟩ (by decide),
   display_forms.2.2.1 ⟨255, by decide⟩ (by decide)⟩

/-- Inserting a path into a cache makes it findable with the inserted
reference. -/
lemma cacheFind_cacheInsert_self (c : Cache) (p : String) (e : Nat) :
    cacheFind (cacheInsert c p e) p = some e := by
  unfold cacheFind cacheInsert
  rw [List.find?_cons_of_pos _ (by simp)]
  rfl

/-- C5: after `add_evaluator(p, e)` on a scope, `get_evaluator(p)` on
that scope and on every ancestor returns a reference equal to `e`
(first conjunct, quantified over the ancestor index), and any
`get_evaluator` hit leaves the queried path memoized in the querying
scope's own cache (second conjunct). -/
theorem evaluator_cache_coherence :
    (∀ (chain : Chain) (p : String) (e : Nat) (i : Nat), i < chain.length →
        (get_evaluator (List.drop i (add_evaluator chain p e)) p).1 = some e) ∧
    (∀ (chain : Chain) (p : String) (e : Nat) (c : Cache) (rest : Chain),
        get_evaluator chain p = (some e, c :: rest) → cacheFind c p = some e) := by
  constructor
  · intro chain p e i hi
    induction chain generalizing i with
    | nil => simp at hi
    | cons c rest ih =>
      cases i with
      | zero =>
        simp only [add_evaluator, List.drop, get_evaluator,
          cacheFind_cacheInsert_self]
      | succ n =>
        have hn : n < rest.length := by
          simpa [List.length_cons, Nat.succ_lt_succ_iff] using hi
        simpa only [add_evaluator, List.drop] using ih n hn
  · intro chain p e c rest h
    cases chain with
    | nil =>
      exact absurd (congrArg Prod.fst h) (by simp [get_evaluator])
    | cons c0 rest0 =>
      unfold get_evaluator at h
      cases hf : cacheFind c0 p with
      | some e0 =>
        rw [hf] at h
        obtain ⟨h1, h2⟩ := Prod.mk.injEq .. ▸ h
        have hc : c = c0 := (List.cons.injEq .. ▸ h2).1.symm
        rw [hc, hf]
        exact h1
      | none =>
        rw [hf] at h
        cases hg : get_evaluator rest0 p with
        | mk o rest' =>
          rw [hg] at h
          cases o with
          | some e1 =>
            simp only at h
            obtain ⟨h1, h2⟩ := Prod.mk.injEq .. ▸ h
            have hc : c = cacheInsert c0 p e1 := (List.cons.injEq .. ▸ h2).1.symm
            rw [hc, cacheFind_cacheInsert_self]
            exact h1
          | none =>
            simp only at h
            exact absurd (congrArg Prod.fst h) (by simp)

/-- C5 witness: a two-scope chain (child with an empty cache, parent
with an unrelated entry); after `add_evaluator` both scopes resolve the
path to the added reference, and a `get_evaluator` hit is present in the
querying scope's own cache. -/
theorem evaluator_cache_coherence_witness :
    (get_evaluator (List.drop 0 (add_evaluator [[], [("q", 1)]] "p" 5)) "p").1 = some 5 ∧
    (get_evaluator (List.drop 1 (add_evaluator [[], [("q", 1)]] "p" 5)) "p").1 = some 5 ∧
    cacheFind [("p", 5)] "p" = some 5 :=
  ⟨evaluator_cache_coherence.1 [[], [("q", 1)]] "p" 5 0 (by decide),
   evaluator_cache_coherence.1 [[], [("q", 1)]] "p" 5 1 (by decide),
   evaluator_cache_coherence.2 [[("p", 5)], []] "p" 5 [("p", 5)] [[]] (by rfl)⟩

/-- Looking a locally-keyed entry up after rehashing all keys under a
scope: the v5 constructor in the term model is injective, so, when the
local keys are free of duplicates, the rehashed map resolves
`v5(scope, l)` to exactly the entry stored under `l`. -/
lemma find_map_v5 (scope : UuidM) :
    ∀ (li : List (UuidM × Nat)) (l : UuidM) (inst : Nat),
      (li.map Prod.fst).Nodup → (l, inst) ∈ li →
      (List.find? (fun pr => pr.1 = UuidM.v5 scope l)
        (li.map (fun pr => (UuidM.v5 scope pr.1, pr.2)))).map Prod.snd = some inst := by
  intro li
  induction li with
  | nil => intro l inst _ hmem; exact absurd hmem (List.not_mem_nil _)
  | cons hd tl ih =>
    intro l inst hnd hmem
    rw [List.map_cons, List.nodup_cons] at hnd
    rcases List.mem_cons.mp hmem with heq | htl
    · subst heq
      rw [List.map_cons, List.find?_cons_of_pos _ (by simp)]
      rfl
    · have hne : hd.1 ≠ l := by
        intro hkey
        exact hnd.1 (hkey ▸ List.mem_map_of_mem Prod.fst htl)
      rw [List.map_cons, List.find?_cons_of_neg _ (by simp [hne])]
      exact ih l inst hnd.2 htl

/-- C6: for every evaluator built by loading a specification, the scope
id is `v5(parent-scope-id, fresh-v4-bytes)` with the nil uuid for a root;
every key of the node map is `v5(scope_id, local)` for some local id of
the specification; and `find_node(local)` resolves a local id by looking
up `v5(scope_id, local)` — in particular, when the specification's local
keys are duplicate-free it returns exactly the instance stored under the
local id. -/
theorem scoped_id_v5_invariant :
    ∀ (parent : Option UuidM) (freshSeed : Nat) (spec : ComplexM),
      (evaluatorNew parent freshSeed spec).scope_id
          = UuidM.v5 (parent.getD UuidM.nil) (UuidM.fresh freshSeed) ∧
      (∀ k, k ∈ (evaluatorNew parent freshSeed spec).nodes.map Prod.fst →
          ∃ l, l ∈ spec.instances.map Prod.fst ∧
            k = UuidM.v5 (evaluatorNew parent freshSeed spec).scope_id l) ∧
      (∀ l inst, (spec.instances.map Prod.fst).Nodup →
          (l, inst) ∈ spec.instances →
          find_node (evaluatorNew parent freshSeed spec) l = some inst) := by
  intro parent freshSeed spec
  refine ⟨rfl, ?_, ?_⟩
  · intro k hk
    simp only [evaluatorNew, List.map_map, List.mem_map] at hk
    obtain ⟨pr, hpr, hkeq⟩ := hk
    exact ⟨pr.1, List.mem_map_of_mem Prod.fst hpr, hkeq.symm⟩
  · intro l inst hnd hmem
    exact find_map_v5 _ spec.instances l inst hnd hmem

/-- C6 witness: a one-instance specification loaded under a parent
scope. -/
theorem scoped_id_v5_invariant_witness :
    (evaluatorNew (some (UuidM.fresh 0)) 1
        ⟨UuidM.fresh 2, [(UuidM.fresh 2, 10)]⟩).scope_id
      = UuidM.v5 (UuidM.fresh 0) (UuidM.fresh 1) ∧
    find_node (evaluatorNew (some (UuidM.fresh 0)) 1
        ⟨UuidM.fresh 2, [(UuidM.fresh 2, 10)]⟩) (UuidM.fresh 2) = some 10 :=
  ⟨(scoped_id_v5_invariant (some (UuidM.fresh 0)) 1
      ⟨UuidM.fresh 2, [(UuidM.fresh 2, 10)]⟩).1,
   (scoped_id_v5_invariant (some (UuidM.fresh 0)) 1
      ⟨UuidM.fresh 2, [(UuidM.fresh 2, 10)]⟩).2.2 (UuidM.fresh 2) 10
     (by simp) (by simp)⟩

/-- A successful cast to `Boolean` always produces a `Boolean` value, so
the `panic!` guard inside `eval_logic`'s cast loop is unreachable. -/
lemma try_cast_boolean_shape (v w : DataValue)
    (h : DataValue.try_cast v DataType.boolean = Except.ok w) :
    ∃ b, w = DataValue.boolean b := by
  cases v <;> simp [DataValue.try_cast, DataValue.get_type] at h
  case boolean b => exact ⟨b, h.symm⟩
  case none => exact ⟨false, h.symm⟩

/-- The cast loop never panics. -/
lemma castAllToBool_ne_none : ∀ vs : List DataValue, castAllToBool vs ≠ Option.none := by
  intro vs
  induction vs with
  | nil => simp [castAllToBool]
  | cons v tl ih =>
    cases hc : DataValue.try_cast v DataType.boolean with
    | error e => simp [castAllToBool, hc]
    | ok w =>
      obtain ⟨b, rfl⟩ := try_cast_boolean_shape v w hc
      cases h2 : castAllToBool tl with
      | none => exact absurd h2 ih
      | some r => simp [castAllToBool, hc, h2]

/-- `collect::<Option<Vec<_>>>` preserves the length on success. -/
lemma listCollect_length :
    ∀ (inputs : List (Option DataValue)) (vs : List DataValue),
      listCollect inputs = some vs → vs.length = inputs.length := by
  intro inputs
  induction inputs with
  | nil =>
    intro vs h
    simp [listCollect] at h
    simp [← h]
  | cons o tl ih =>
    intro vs h
    cases o with
    | none => simp [listCollect] at h
    | some x =>
      cases htl : listCollect tl with
      | none => rw [listCollect, htl] at h; simp at h
      | some ys =>
        rw [listCollect, htl] at h
        simp at h
        simp [← h, ih ys htl]

/-- The cast loop preserves the length on success. -/
lemma castAllToBool_length :
    ∀ (vs : List DataValue) (bs : List Bool),
      castAllToBool vs = some (Except.ok bs) → bs.length = vs.length := by
  intro vs
  induction vs with
  | nil =>
    intro bs h
    simp [castAllToBool] at h
    simp [← h]
  | cons v tl ih =>
    intro bs h
    cases hc : DataValue.try_cast v DataType.boolean with
    | error e => rw [castAllToBool, hc] at h; simp at h
    | ok w =>
      obtain ⟨b, rfl⟩ := try_cast_boolean_shape v w hc
      rw [castAllToBool, hc] at h
      cases htl : castAllToBool tl with
      | none => rw [htl] at h; simp at h
      | some r =>
        rw [htl] at h
        cases r with
        | error e => simp [Except.map] at h
        | ok bs2 =>
          simp [Except.map] at h
          simp [← h, ih bs2 (by rw [htl])]

/-- C10: for `And`, `Or` and `Xor`, when the input list unwraps (no
channel-level `None`) and every input casts to `Boolean`, the evaluation
returns the single `Boolean` fold of the cast inputs under the operator
(first conjunct; the cast list is nonempty whenever the inputs are,
second conjunct), and it panics — the `unwrap` of `reduce` — exactly when
the input list is empty (third conjunct). -/
theorem logic_fold_no_panic :
    (∀ (inputs : List (Option DataValue)) (vs : List DataValue) (b : Bool) (bs : List Bool),
        listCollect inputs = some vs →
        castAllToBool vs = some (Except.ok (b :: bs)) →
        eval_logic AtomicLogic.And inputs
          = some (Except.ok [DataValue.boolean (bs.foldl (fun a c => a && c) b)]) ∧
        eval_logic AtomicLogic.Or inputs
          = some (Except.ok [DataValue.boolean (bs.foldl (fun a c => a || c) b)]) ∧
        eval_logic AtomicLogic.Xor inputs
          = some (Except.ok [DataValue.boolean (bs.foldl (fun a c => xor a c) b)])) ∧
    (∀ (inputs : List (Option DataValue)) (vs : List DataValue) (bools : List Bool),
        listCollect inputs = some vs →
        castAllToBool vs = some (Except.ok bools) →
        bools.length = inputs.length) ∧
    (∀ (op : AtomicLogic) (inputs : List (Option DataValue)),
        (op = AtomicLogic.And ∨ op = AtomicLogic.Or ∨ op = AtomicLogic.Xor) →
        (eval_logic op inputs = Option.none ↔ inputs = [])) := by
  have hlen : ∀ (inputs : List (Option DataValue)) (vs : List DataValue) (bools : List Bool),
      listCollect inputs = some vs → castAllToBool vs = some (Except.ok bools) →
      bools.length = inputs.length := by
    intro inputs vs bools h1 h2
    exact (castAllToBool_length vs bools h2).trans (listCollect_length inputs vs h1)
  refine ⟨?_, hlen, ?_⟩
  · intro inputs vs b bs h1 h2
    refine ⟨?_, ?_, ?_⟩ <;> simp [eval_logic, h1, h2, reduceLogic]
  · intro op inputs hop
    constructor
    · intro h
      rcases hop with rfl | rfl | rfl <;>
      · cases hcol : listCollect inputs with
        | none => simp [eval_logic, hcol] at h
        | some vs =>
          cases hcast : castAllToBool vs with
          | none => exact absurd hcast (castAllToBool_ne_none vs)
          | some r =>
            cases r with
            | error e => simp [eval_logic, hcol, hcast] at h
            | ok bools =>
              cases bools with
              | nil =>
                have hl := hlen inputs vs [] hcol hcast
                exact List.length_eq_zero.mp (by simpa using hl.symm)
              | cons b bs => simp [eval_logic, hcol, hcast, reduceLogic] at h
    · rintro rfl
      rcases hop with rfl | rfl | rfl <;> rfl

/-- C10 witness: a two-input `And` evaluation (with a `None` value cast
to `false`) folds to `false`, and the empty-input `Xor` panics. -/
theorem logic_fold_no_panic_witness :
    eval_logic AtomicLogic.And [some (DataValue.boolean true), some DataValue.none]
      = some (Except.ok [DataValue.boolean false]) ∧
    eval_logic AtomicLogic.Xor [] = Option.none :=
  ⟨(logic_fold_no_panic.1 [some (DataValue.boolean true), some DataValue.none]
      [DataValue.boolean true, DataValue.none] true [false] rfl rfl).1,
   (logic_fold_no_panic.2.2 AtomicLogic.Xor [] (Or.inr (Or.inr rfl))).mpr rfl⟩

/-- The sliding-window invariant of `read_until_generic`: after each
iteration the window is the suffix of the buffer of length
`min |buffer| |pattern|`, expressed via `drop`. -/
lemma windowStep_invariant (pattern buffer window : List Nat) (b : Nat)
    (inv : window = buffer.drop (buffer.length - pattern.length)) :
    windowStep pattern window b
      = (buffer ++ [b]).drop ((buffer ++ [b]).length - pattern.length) := by
  have hwlen : window.length = buffer.length - (buffer.length - pattern.length) := by
    rw [inv, List.length_drop]
  have hLb : (buffer ++ [b]).length = buffer.length + 1 := by simp
  unfold windowStep
  by_cases hlt : pattern.length < (window ++ [b]).length
  · rw [if_pos hlt]
    have hlt' : pattern.length ≤ window.length := by
      have := hlt
      simp only [List.length_append, List.length_singleton] at this
      omega
    have hpL : pattern.length ≤ buffer.length := by omega
    rw [← List.drop_one]
    calc (window ++ [b]).drop 1
        = ((buffer ++ [b]).drop (buffer.length - pattern.length)).drop 1 := by
          rw [inv, List.drop_append_of_le_length (Nat.sub_le _ _)]
      _ = (buffer ++ [b]).drop ((buffer.length - pattern.length) + 1) :=
          List.drop_drop ..
      _ = (buffer ++ [b]).drop ((buffer ++ [b]).length - pattern.length) := by
          rw [hLb]; congr 1; omega
  · rw [if_neg hlt]
    have hge : window.length + 1 ≤ pattern.length := by
      have := Nat.le_of_not_lt hlt
      simpa using this
    have h0 : buffer.length - pattern.length = 0 := by omega
    have h1 : (buffer ++ [b]).length - pattern.length = 0 := by rw [hLb]; omega
    rw [inv, h0, List.drop_zero, h1, List.drop_zero]

/-- Full characterisation of the `read_until_generic` loop, generalised
over the accumulators: the stream splits into the consumed prefix and
the untouched rest; the result is the buffer extended by the consumed
bytes; if bytes remain unread, the last `|pattern|` bytes of the result
equal the pattern; and no earlier checked position matched. -/
lemma readUntilAux_spec (pattern stream : List Nat) :
    ∀ buffer window : List Nat,
      window = buffer.drop (buffer.length - pattern.length) →
      ∃ consumed rest,
        stream = consumed ++ rest ∧
        readUntilAux pattern buffer window stream = (buffer ++ consumed, rest) ∧
        (rest ≠ [] →
          pattern.length ≤ (buffer ++ consumed).length ∧
          (buffer ++ consumed).drop ((buffer ++ consumed).length - pattern.length)
            = pattern) ∧
        (∀ k, buffer.length < k → k < (buffer ++ consumed).length →
          ¬(pattern.length ≤ k ∧
            ((buffer ++ consumed).take k).drop (k - pattern.length) = pattern)) := by
  induction stream with
  | nil =>
    intro buffer window _
    refine ⟨[], [], by simp, by simp [readUntilAux], by simp, ?_⟩
    intro k hk1 hk2
    rw [List.append_nil] at hk2
    omega
  | cons b rest0 ih =>
    intro buffer window inv
    have inv' := windowStep_invariant pattern buffer window b inv
    by_cases hc : (windowStep pattern window b).length = pattern.length ∧
        windowStep pattern window b = pattern
    · refine ⟨[b], rest0, rfl, ?_, ?_, ?_⟩
      · simp only [readUntilAux]
        rw [if_pos hc]
      · intro _
        constructor
        · have hl := hc.1
          rw [inv', List.length_drop] at hl
          omega
        · rw [← inv']
          exact hc.2
      · intro k hk1 hk2
        simp only [List.length_append, List.length_singleton] at hk2
        omega
    · obtain ⟨consumed', rest', hs, hrun, hterm, hmin⟩ :=
        ih (buffer ++ [b]) (windowStep pattern window b) inv'
      refine ⟨b :: consumed', rest', by simp [hs], ?_, ?_, ?_⟩
      · simp only [readUntilAux]
        rw [if_neg hc, hrun]
        simp
      · intro hrest
        obtain ⟨h1, h2⟩ := hterm hrest
        exact ⟨by simpa using h1, by
          have := h2
          rw [show (buffer ++ [b]) ++ consumed' = buffer ++ b :: consumed' by simp]
            at this
          exact this⟩
      · intro k hk1 hk2 hP
        by_cases hkb : k = buffer.length + 1
        · have hfull : buffer ++ b :: consumed' = (buffer ++ [b]) ++ consumed' := by
            simp
          have htake : (buffer ++ b :: consumed').take k = buffer ++ [b] := by
            rw [hfull, hkb]
            have hlb : (buffer ++ [b]).length = buffer.length + 1 := by simp
            rw [← hlb, List.take_left]
          have hsuf : (buffer ++ [b]).drop (k - pattern.length) = pattern := by
            rw [← htake]
            exact hP.2
          have hwin : windowStep pattern window b = pattern := by
            rw [inv']
            rw [show (buffer ++ [b]).length - pattern.length = k - pattern.length by
              simp [hkb]]
            exact hsuf
          exact hc ⟨by rw [hwin], hwin⟩
        · have hk1' : (buffer ++ [b]).length < k := by
            simp only [List.length_append, List.length_singleton]
            omega
          have hk2' : k < ((buffer ++ [b]) ++ consumed').length := by
            simpa using hk2
          refine hmin k hk1' hk2' ⟨hP.1, ?_⟩
          have := hP.2
          rw [show buffer ++ b :: consumed' = (buffer ++ [b]) ++ consumed' by simp]
            at this
          exact this

/-- C2 counterexample: with the empty pattern and a reader holding the
byte `7`, `read_until_generic` consumes and returns that byte — the
empty window already equals the empty pattern after the first read — so
"returns an empty byte sequence and consumes no bytes" fails. -/
theorem read_until_empty_pattern_consumes :
    read_until_generic [] [7] = ([7], []) ∧
    (([7], []) : List Nat × List Nat) ≠ ([], [7]) := by
  exact ⟨rfl, by decide⟩

/-- C2 (amended): `read_until_generic` reads one byte at a time,
appending each byte to the result and to a sliding window of the last
`|pattern|` bytes, and terminates exactly when the window equals the
pattern or a read returns zero bytes: the result is a prefix of the
stream; if bytes remain, the result's last `|pattern|` bytes equal the
pattern and no earlier read position matched.  With an EMPTY pattern it
consumes and returns exactly the first byte when the reader yields one,
and returns empty only at end of stream. -/
theorem read_until_spec :
    (∀ pattern stream : List Nat,
        (read_until_generic pattern stream).1 ++ (read_until_generic pattern stream).2
          = stream ∧
        ((read_until_generic pattern stream).2 ≠ [] →
          pattern.length ≤ (read_until_generic pattern stream).1.length ∧
          (read_until_generic pattern stream).1.drop
            ((read_until_generic pattern stream).1.length - pattern.length)
              = pattern) ∧
        (∀ k, 0 < k → k < (read_until_generic pattern stream).1.length →
          ¬(pattern.length ≤ k ∧
            ((read_until_generic pattern stream).1.take k).drop (k - pattern.length)
              = pattern))) ∧
    (∀ (b : Nat) (rest : List Nat), read_until_generic [] (b :: rest) = ([b], rest)) ∧
    read_until_generic [] [] = ([], []) := by
  refine ⟨?_, ?_, rfl⟩
  · intro pattern stream
    obtain ⟨consumed, rest, hs, hrun, hterm, hmin⟩ :=
      readUntilAux_spec pattern stream [] [] (by simp)
    have hr : read_until_generic pattern stream = (consumed, rest) := by
      unfold read_until_generic
      rw [hrun]
      simp
    rw [hr]
    refine ⟨by simp [hs], ?_, ?_⟩
    · intro h
      obtain ⟨h1, h2⟩ := hterm h
      exact ⟨by simpa using h1, by simpa using h2⟩
    · intro k hk1 hk2 hP
      exact hmin k (by simpa using hk1) (by simpa using hk2)
        ⟨hP.1, by simpa using hP.2⟩
  · intro b rest
    simp [read_until_generic, readUntilAux, windowStep]

/-- C2 witness: a newline-terminated read (pattern `[10]`) splits the
stream at the newline inclusive with the pattern as the result's suffix,
and the empty pattern consumes exactly one byte. -/
theorem read_until_spec_witness :
    (read_until_generic [10] [104, 105, 10, 120]).1
        ++ (read_until_generic [10] [104, 105, 10, 120]).2 = [104, 105, 10, 120] ∧
    (read_until_generic [10] [104, 105, 10, 120]).1.drop
      ((read_until_generic [10] [104, 105, 10, 120]).1.length
        - ([10] : List Nat).length) = [10] ∧
    read_until_generic [] [7, 8] = ([7], [8]) :=
  ⟨(read_until_spec.1 [10] [104, 105, 10, 120]).1,
   ((read_until_spec.1 [10] [104, 105, 10, 120]).2.1 (by decide)).2,
   read_until_spec.2.1 7 [8]⟩

end AgentNodes
